import Mathlib

/-!
Verification of the device command-dispatch and result-aggregation
subsystem of the vane repository (src/vane/bin/tests_tools.py and
src/vane/bin/tests/memory/test_memory.py), via a shallow embedding.

Python dictionaries are modelled as insertion-ordered association lists
(assignment overwrites in place, new keys append at the end), YAML data
as a JSON-like inductive value type, and raised exceptions as an error
type threaded through Except.  All definitions are executable; external
collaborators (the pyeapi connection, the file system) are passed in as
explicit function or list parameters.
-/

namespace Vane

/-- A JSON/YAML-like value, modelling the data Python passes around:
strings, numbers (rationals stand in for Python ints and floats),
booleans, lists, dictionaries and None. -/
inductive Value where
  | str : String → Value
  | num : ℚ → Value
  | bool : Bool → Value
  | list : List Value → Value
  | dict : List (String × Value) → Value
  | null : Value

/-- Python exception kinds raised by the modelled code paths.
The err constructor carries the message of a generic Exception, and
systemExit models the logged process-exit path used by the configuration
error handlers in tests_tools.py (sys.exit after logging). -/
inductive PyErr where
  | indexError : PyErr
  | keyError : PyErr
  | typeError : PyErr
  | err : String → PyErr
  | systemExit : PyErr
deriving DecidableEq

/-- Dictionary read, first matching key (Python dicts have unique keys;
the model keeps the first binding). -/
def lookup : List (String × Value) → String → Option Value
  | [], _ => none
  | (k, v) :: rest, key => if k = key then some v else lookup rest key

/-- Dictionary assignment d[key] = v: overwrite in place if the key is
present, append at the end otherwise, preserving insertion order like a
Python dict. -/
def setKey : List (String × Value) → String → Value → List (String × Value)
  | [], key, v => [(key, v)]
  | (k, w) :: rest, key, v =>
      if k = key then (k, v) :: rest else (k, w) :: setKey rest key v

/-- Keys of a dictionary in insertion order. -/
def keysOf (d : List (String × Value)) : List String := d.map (fun kv => kv.1)

/-- Substring test on character lists: does the second list occur at the
start of the first. -/
def beginsWith : List Char → List Char → Bool
  | _, [] => true
  | [], _ :: _ => false
  | h :: hs, n :: ns => h = n && beginsWith hs ns

/-- Substring test on character lists: does needle occur anywhere in hay. -/
def containsSub : List Char → List Char → Bool
  | [], needle => beginsWith [] needle
  | h :: hs, needle => beginsWith (h :: hs) needle || containsSub hs needle

/-- Python membership test c in e for strings: c occurs as a contiguous
substring of e. -/
def occursIn (c e : String) : Bool := containsSub e.data c.data

/-- Faithful model of the Python for loop in remove_cmd
(tests_tools.py lines 247-250).  Python iterates with an internal index
over the live list: fetching the element at position i advances the
index, and popping show_cmds.index(show_cmd) shifts later elements left
without rewinding the index, so the element right after a removed one is
never examined.  The index used for the pop is the first position
holding an equal string, as list.index computes it. -/
def removeLoop (e : String) (cmds : List String) (i : Nat) : List String :=
  if h : i < cmds.length then
    if occursIn (cmds.get ⟨i, h⟩) e then
      removeLoop e (cmds.eraseIdx (cmds.findIdx (fun x => x = cmds.get ⟨i, h⟩))) (i + 1)
    else
      removeLoop e cmds (i + 1)
  else cmds
termination_by 2 * cmds.length - i
decreasing_by
  · have hle : (cmds.eraseIdx (cmds.findIdx (fun x => x = cmds.get ⟨i, h⟩))).length ≤ cmds.length :=
      (List.eraseIdx_sublist _ _).length_le
    omega
  · omega

/-- Model of remove_cmd (tests_tools.py lines 237-252): run the
mutating loop from index 0 on the live list. -/
def remove_cmd (e : String) (cmds : List String) : List String :=
  removeLoop e cmds 0

/-- Structural companion of the remove_cmd loop: on a duplicate-free
list the loop removes a matching command and then skips the element
that slides into its place, which this two-step recursion expresses
directly. -/
def skipRemove (e : String) : List String → List String
  | [] => []
  | [c] => if occursIn c e then [] else [c]
  | c :: d :: rest =>
      if occursIn c e then d :: skipRemove e rest
      else c :: skipRemove e (d :: rest)

/-- Output encoding selector used by send_cmds: the source branches on
the strings json and text; its callers pass nothing else. -/
inductive Encoding where
  | json : Encoding
  | text : Encoding
deriving DecidableEq

/-- External pyeapi connection handle.  run models run_commands for the
given encoding: it either returns one result value per submitted
command or raises an exception whose message is the carried string. -/
structure Conn where
  run : Encoding → List String → Except String (List Value)

/-- Model of send_cmds (tests_tools.py lines 207-234).  On success it
returns the result list together with the command list it ran; on
failure it narrows the list with remove_cmd and recurses.  Because the
Python list object is shared by every recursion level, the command list
returned at the outer level is the fully narrowed one, which the
functional model expresses by returning the recursive result unchanged.
The Python recursion has no bound; fuel counts the passes still allowed
and none models a recursion that never reaches success. -/
def sendCmds (conn : Conn) (enc : Encoding) :
    Nat → List String → Option (List Value × List String)
  | 0, _ => none
  | fuel + 1, cmds =>
    match conn.run enc cmds with
    | .ok rs => some (rs, cmds)
    | .error e => sendCmds conn enc fuel (remove_cmd e cmds)

/-- A connection whose failures never name any command: every call
raises with the message zzz. -/
def stubbornConn : Conn := ⟨fun _ _ => .error "zzz"⟩

/-- A connection that rejects any batch containing the command
show bad with an error naming it, and accepts everything else. -/
def namingConn : Conn :=
  ⟨fun _ cs =>
    if "show bad" ∈ cs then .error "err show bad"
    else .ok (cs.map Value.str)⟩

/-- A connection that accepts every batch, answering each command with
its own text wrapped as a value. -/
def okConn : Conn := ⟨fun _ cs => .ok (cs.map Value.str)⟩

/-- A neighbor entry of a device descriptor in the definitions YAML
(keys port, neighborDevice, neighborPort read by return_interfaces). -/
structure Neighbor where
  port : String
  neighborDevice : String
  neighborPort : String

/-- A device descriptor from the duts section of the definitions YAML,
with the keys read by login_duts and return_interfaces. -/
structure DutDef where
  name : String
  mgmt_ip : String
  username : String
  neighbors : List Neighbor

/-- A test suite entry of the definitions structure.  The loader
(return_test_defs) always supplies name and testcases, so they are
record fields; individual test cases keep the open dictionary shape
because test processing appends arbitrary keys to them. -/
structure Suite where
  name : String
  testcases : List (List (String × Value))

/-- The loaded definitions structure: top-level parameters, device
descriptors and test suites. -/
structure Defs where
  parameters : List (String × Value)
  duts : List DutDef
  test_suites : List Suite

/-- One interface dictionary appended by return_interfaces
(tests_tools.py lines 392-404). -/
def interfaceOf (dutName : String) (nb : Neighbor) : Value :=
  .dict [("hostname", .str dutName), ("interface_name", .str nb.port),
    ("z_hostname", .str nb.neighborDevice),
    ("z_interface_name", .str nb.neighborPort), ("media_type", .str "")]

/-- Model of return_interfaces (tests_tools.py lines 366-407): collect
the neighbor interfaces of every configured device whose name equals the
hostname, in configured order. -/
def return_interfaces (hostname : String) (defs : Defs) : List Value :=
  (defs.duts.filter (fun d => d.name = hostname)).flatMap
    (fun d => d.neighbors.map (interfaceOf d.name))

/-- A device record as built by login_duts and populated by dut_worker:
name, address, credentials and connection copied from the descriptor,
output table absent until the worker writes it. -/
structure Dut where
  name : String
  mgmt_ip : String
  username : String
  conn : Conn
  output : Option (List (String × Value))

/-- Model of login_duts (tests_tools.py lines 177-204): one record per
configured device in order; connection creation is delegated to the
external client, passed in as mkConn. -/
def login_duts (defs : Defs) (mkConn : String → Conn) : List Dut :=
  defs.duts.map (fun d =>
    { name := d.name, mgmt_ip := d.mgmt_ip, username := d.username,
      conn := mkConn d.name, output := none })

/-- The subscript show_output_txt.get of the key output applied by
dut_worker line 308 and return_show_cmd lines 349 and 356: KeyError if
the key is absent, TypeError if the value is not a dictionary. -/
def extractTextOutput : Value → Except PyErr Value
  | .dict d =>
      match lookup d "output" with
      | some v => .ok v
      | none => .error .keyError
  | _ => .error .typeError

/-- The json entry computed by dut_worker (lines 290-303): the result at
the index of the command in the reduced json command list, or the empty
string when the command was dropped; IndexError if the result list is
shorter than the command list. -/
def entryJson (cmd : String) (jsonCmds : List String) (jsonRes : List Value) :
    Except PyErr Value :=
  if cmd ∈ jsonCmds then
    match jsonRes.get? (jsonCmds.findIdx (fun x => x = cmd)) with
    | some v => .ok v
    | none => .error .indexError
  else .ok (.str "")

/-- The text entry computed by dut_worker (lines 305-314): like the json
entry but taking the output field of the per-command result dictionary. -/
def entryText (cmd : String) (txtCmds : List String) (txtRes : List Value) :
    Except PyErr Value :=
  if cmd ∈ txtCmds then
    match txtRes.get? (txtCmds.findIdx (fun x => x = cmd)) with
    | some v => extractTextOutput v
    | none => .error .indexError
  else .ok (.str "")

/-- The population loop of dut_worker (lines 281-314): for each command
of the original set, in order, create the entry dictionary, then its
json field, then its text field.  On a raised error the loop stops,
leaving the table with the partially built entry, as the Python
exception would. -/
def buildOutput (jsonCmds txtCmds : List String) (jsonRes txtRes : List Value) :
    List String → List (String × Value) →
    List (String × Value) × Option PyErr
  | [], table => (table, none)
  | cmd :: rest, table =>
    match entryJson cmd jsonCmds jsonRes with
    | .error er => (setKey table cmd (.dict []), some er)
    | .ok jv =>
      match entryText cmd txtCmds txtRes with
      | .error er => (setKey table cmd (.dict [("json", jv)]), some er)
      | .ok tv =>
          buildOutput jsonCmds txtCmds jsonRes txtRes rest
            (setKey table cmd (.dict [("json", jv), ("text", tv)]))

/-- Model of dut_worker (tests_tools.py lines 255-316): set the output
table to the interface list entry, run the command set once per
encoding through send_cmds (each on its own copy of the set), then
populate one entry per original command.  none models a worker stuck in
a send_cmds recursion that never returns; a raised error is carried
beside the partially populated record. -/
def dut_worker (defs : Defs) (dut : Dut) (show_cmds : List String)
    (fuel : Nat) : Option (Dut × Option PyErr) :=
  match sendCmds dut.conn Encoding.json fuel show_cmds with
  | none => none
  | some (jsonRes, jsonCmds) =>
    match sendCmds dut.conn Encoding.text fuel show_cmds with
    | none => none
    | some (txtRes, txtCmds) =>
        let table0 : List (String × Value) :=
          [("interface_list", .list (return_interfaces dut.name defs))]
        let bt := buildOutput jsonCmds txtCmds jsonRes txtRes show_cmds table0
        some ({ dut with output := some bt.1 }, bt.2)

/-- Model of init_duts (tests_tools.py lines 141-174): build the device
records, run one worker per record, return the records.  The thread
pool joins all workers at the end of the with block but never observes
their exceptions, so a failed worker leaves its (possibly partially
populated) record in the returned list. -/
def init_duts (defs : Defs) (mkConn : String → Conn) (show_cmds : List String)
    (fuel : Nat) : List Dut :=
  (login_duts defs mkConn).map (fun dut =>
    match dut_worker defs dut show_cmds fuel with
    | some du => du.1
    | none => dut)

/-- Keys of the output table of a populated device record. -/
def outputKeys (d : Dut) : Option (List String) := d.output.map keysOf

/-- Python str.split on the slash separator, over the character list of
the string (the accumulator collects the current piece reversed). -/
def splitSlash : List Char → List Char → List String
  | [], acc => [String.mk acc.reverse]
  | c :: rest, acc =>
      if c = '/' then String.mk acc.reverse :: splitSlash rest []
      else splitSlash rest (c :: acc)

/-- Python test_suite.split on slash, last component, subscript -1
(tests_tools.py line 445). -/
def lastComponent (s : String) : String := (splitSlash s.data []).getLastD ""

/-- Python equality between a dictionary value and a string: true only
for an equal string value, false (without raising) on other shapes. -/
def valueEqStr (v : Value) (s : String) : Bool :=
  match v with
  | .str t => t = s
  | _ => false

/-- The suite filter of get_parameters (lines 448-452): index and suite
of the first test suite whose name equals the requested one. -/
def findSuite : List Suite → String → Option (Nat × Suite)
  | [], _ => none
  | s :: rest, sn =>
      if s.name = sn then some (0, s)
      else (findSuite rest sn).map (fun p => (p.1 + 1, p.2))

/-- The case filter of get_parameters (lines 456-460): positions and
dictionaries of every test case whose name field equals the requested
test case, scanning the whole list as the Python comprehension does and
raising KeyError at the first case lacking a name field. -/
def findCases : List (List (String × Value)) → String →
    Except PyErr (List (Nat × List (String × Value)))
  | [], _ => .ok []
  | p :: rest, tc =>
    match lookup p "name" with
    | none => .error .keyError
    | some v =>
      match findCases rest tc with
      | .error er => .error er
      | .ok ms =>
          let ms' := ms.map (fun m => (m.1 + 1, m.2))
          .ok (if valueEqStr v tc then (0, p) :: ms' else ms')

/-- Replace test case j of suite i, modelling in-place mutation of the
matched case dictionary inside the definitions structure. -/
def setCase : List Suite → Nat → Nat → List (String × Value) → List Suite
  | [], _, _, _ => []
  | s :: rest, 0, j, p => { s with testcases := s.testcases.set j p } :: rest
  | s :: rest, i + 1, j, p => s :: setCase rest i j p

/-- Model of get_parameters and the identical TestOps._get_parameters
(tests_tools.py lines 433-465 and 761-793), with the location of the
mutated case exposed.  The default test case name taken from the caller
frame via inspect.stack is passed in as caller.  An empty suite filter
raises IndexError at suite_parameters subscript 0; an empty case filter
raises IndexError at case_parameters subscript 0; the matched case is
mutated in place by adding the test_suite field and is also returned. -/
def get_parameters_loc (defs : Defs) (test_suite test_case caller : String) :
    Except PyErr (Defs × Nat × Nat × List (String × Value)) :=
  let tc := if test_case = "" then caller else test_case
  let sn := lastComponent test_suite
  match findSuite defs.test_suites sn with
  | none => .error .indexError
  | some (i, s) =>
    match findCases s.testcases tc with
    | .error er => .error er
    | .ok [] => .error .indexError
    | .ok (m :: _) =>
        let p' := setKey m.2 "test_suite" (.str sn)
        .ok ({ defs with test_suites := setCase defs.test_suites i m.1 p' },
          i, m.1, p')

/-- Model of get_parameters as its callers see it: the updated
definitions structure and the returned (aliased) case dictionary. -/
def get_parameters (defs : Defs) (test_suite test_case caller : String) :
    Except PyErr (Defs × List (String × Value)) :=
  match get_parameters_loc defs test_suite test_case caller with
  | .error er => .error er
  | .ok (d, _, _, p) => .ok (d, p)

/-- Model of TestOps.post_testcase (tests_tools.py lines 730-744) acting
on the test parameters dictionary: assign comment, test_result,
output_msg, expected_output, actual_output, dut, then fail_reason empty,
overwritten by output_msg when test_result is falsy. -/
def post_testcase_params (p : List (String × Value)) (comment : Value)
    (test_result : Bool) (output_msg : String) (expected actual : Value)
    (dutName : String) : List (String × Value) :=
  let p1 := setKey p "comment" comment
  let p2 := setKey p1 "test_result" (.bool test_result)
  let p3 := setKey p2 "output_msg" (.str output_msg)
  let p4 := setKey p3 "expected_output" expected
  let p5 := setKey p4 "actual_output" actual
  let p6 := setKey p5 "dut" (.str dutName)
  let p7 := setKey p6 "fail_reason" (.str "")
  if test_result then p7 else setKey p7 "fail_reason" (.str output_msg)

/-- One test case processed end to end against the definitions
structure: the TestOps constructor looks the case up (mutating it by
adding test_suite), the test runs, post_testcase writes the outcome
fields into the same aliased dictionary.  Returns the resulting
definitions structure and the location of the touched case. -/
def process_testcase (defs : Defs) (test_suite test_case caller : String)
    (comment : Value) (test_result : Bool) (output_msg : String)
    (expected actual : Value) (dutName : String) :
    Except PyErr (Defs × Nat × Nat) :=
  match get_parameters_loc defs test_suite test_case caller with
  | .error er => .error er
  | .ok (d, i, j, p) =>
      let p' := post_testcase_params p comment test_result output_msg
        expected actual dutName
      .ok ({ d with test_suites := setCase d.test_suites i j p' }, i, j)

/-- The test case dictionary at suite index i, case index j. -/
def caseAt (defs : Defs) (i j : Nat) : Option (List (String × Value)) :=
  (defs.test_suites.get? i).bind (fun s => s.testcases.get? j)

/-- The fields process_testcase writes into the matched case. -/
def touchedKeys : List String :=
  ["test_suite", "comment", "test_result", "output_msg", "expected_output",
    "actual_output", "dut", "fail_reason"]

/-- Python str applied to a value interpolated into the result file
name.  The result pipeline only ever passes strings here (name comes
from the YAML, dut is set by post_testcase); renderings of the other
shapes are placeholders that no claim exercises. -/
def pyStr : Value → String
  | .str s => s
  | .bool b => if b then "True" else "False"
  | .null => "None"
  | .num q => toString q
  | .list _ => "[...]"
  | .dict _ => "[...]"

/-- Model of export_yaml (tests_tools.py lines 647-669) over a file
system modelled as a path-indexed dictionary: opening with mode w and
dumping replaces the whole file content. -/
def export_yaml (fs : List (String × Value)) (path : String) (data : Value) :
    List (String × Value) :=
  setKey fs path data

/-- The result file name built by TestOps._write_results line 755. -/
def result_path (test_case dut_name : String) : String :=
  "../reports/results/result-" ++ test_case ++ "-" ++ dut_name ++ ".yml"

/-- Model of TestOps._write_results (tests_tools.py lines 746-759):
read test_suite (computed but unused for the name), dut and name from
the parameters, then export the whole dictionary to the derived path.
A missing key raises KeyError. -/
def write_results (fs : List (String × Value)) (p : List (String × Value)) :
    Except PyErr (List (String × Value)) :=
  match lookup p "test_suite" with
  | none => .error .keyError
  | some _ =>
    match lookup p "dut" with
    | none => .error .keyError
    | some dv =>
      match lookup p "name" with
      | none => .error .keyError
      | some nv =>
          .ok (export_yaml fs (result_path (pyStr nv) (pyStr dv)) (.dict p))

/-- Observable events of the text-output retrieval in return_show_cmd:
a run_commands call in text encoding, or a time.sleep of the given
number of seconds. -/
inductive TraceEv where
  | callText : TraceEv
  | sleepSec : Nat → TraceEv
deriving DecidableEq

/-- One attempt of the text path of return_show_cmd (lines 348-349 and
354-356): call run_commands in text encoding (the outcome of call
number n is oc n), then take element 0 and its output field. -/
def run_text_attempt (oc : Nat → Except PyErr (List Value)) (n : Nat) :
    Except PyErr Value :=
  match oc n with
  | .error er => .error er
  | .ok lst =>
    match lst.head? with
    | none => .error .indexError
    | some v => extractTextOutput v

/-- Model of the text retrieval of return_show_cmd (tests_tools.py
lines 347-356): try the first attempt; on any exception sleep one
second and run a second attempt outside any try block, so its outcome,
success or failure, is returned as is.  The first component is the
trace of calls and sleeps performed. -/
def return_show_cmd_text (oc : Nat → Except PyErr (List Value)) :
    List TraceEv × Except PyErr Value :=
  match run_text_attempt oc 0 with
  | .ok v => ([.callText], .ok v)
  | .error _ => ([.callText, .sleepSec 1, .callText], run_text_attempt oc 1)

/-- Number of run_commands calls in a trace. -/
def numTextCalls (tr : List TraceEv) : Nat :=
  tr.countP (fun ev => match ev with | .callText => true | _ => false)

/-- Model of the computation in
MemoryTests.test_memory_utilization_on_ (test_memory.py lines 76-82):
actual_output is memFree divided by memTotal times 100, and the test
passes when it is strictly below expected_output.  The Python floats
are modelled by rationals; at the inputs the claims exercise every
intermediate float is exactly representable, so the models agree. -/
def memory_utilization (memTotal memFree expected_output : ℚ) : ℚ × Bool :=
  let actual_output := memFree / memTotal * 100
  (actual_output, decide (actual_output < expected_output))

/-- A connection that accepts every batch in both encodings and whose
text results carry the output field dut_worker extracts. -/
def textConn : Conn :=
  ⟨fun enc cs =>
    match enc with
    | .json => .ok (cs.map (fun c => .dict [("result", .str c)]))
    | .text => .ok (cs.map (fun c => .dict [("output", .str c)]))⟩

/-- Concrete example data for witnesses: one device with one neighbor. -/
def exDutDef : DutDef :=
  ⟨"dut1", "10.0.0.1", "admin", [⟨"Ethernet1", "dut2", "Ethernet2"⟩]⟩

/-- Concrete example test case dictionary for witnesses. -/
def exCase : List (String × Value) :=
  [("name", .str "test_memory_utilization_on_"),
    ("show_cmd", .str "show version"), ("expected_output", .num 70)]

/-- Concrete example definitions structure for witnesses. -/
def exDefs : Defs :=
  ⟨[("show_log", .str "show_output.log")], [exDutDef],
    [⟨"test_memory", [exCase]⟩]⟩

/-- Connection factory for witnesses: every device gets textConn. -/
def exMkConn : String → Conn := fun _ => textConn

-- ===================== theorems =====================

theorem lookup_setKey_self (d : List (String × Value)) (k : String) (v : Value) :
    lookup (setKey d k v) k = some v := by
  induction d with
  | nil => simp [setKey, lookup]
  | cons kv rest ih =>
      obtain ⟨k', w⟩ := kv
      by_cases h : k' = k
      · subst h; simp [setKey, lookup]
      · simp [setKey, lookup, h, ih]

theorem lookup_setKey_ne (d : List (String × Value)) (k k' : String) (v : Value)
    (h : k' ≠ k) : lookup (setKey d k v) k' = lookup d k' := by
  induction d with
  | nil =>
      simp only [setKey, lookup]
      rw [if_neg (fun hh => h hh.symm)]
  | cons kv rest ih =>
      obtain ⟨k0, w⟩ := kv
      by_cases h0 : k0 = k
      · subst h0
        simp only [setKey, if_pos rfl, lookup]
        rw [if_neg (fun hh => h hh.symm), if_neg (fun hh => h hh.symm)]
      · simp only [setKey, if_neg h0, lookup]
        by_cases h1 : k0 = k'
        · rw [if_pos h1, if_pos h1]
        · rw [if_neg h1, if_neg h1, ih]

theorem setKey_setKey (d : List (String × Value)) (k : String) (v w : Value) :
    setKey (setKey d k v) k w = setKey d k w := by
  induction d with
  | nil => simp [setKey]
  | cons kv rest ih =>
      obtain ⟨k0, u⟩ := kv
      by_cases h0 : k0 = k
      · subst h0; simp [setKey]
      · simp [setKey, h0, ih]

theorem keysOf_cons (k : String) (v : Value) (d : List (String × Value)) :
    keysOf ((k, v) :: d) = k :: keysOf d := rfl

theorem keysOf_setKey_not_mem (d : List (String × Value)) (k : String) (v : Value)
    (h : k ∉ keysOf d) : keysOf (setKey d k v) = keysOf d ++ [k] := by
  induction d with
  | nil => simp [setKey, keysOf]
  | cons kv rest ih =>
      obtain ⟨k0, u⟩ := kv
      have h1 : ¬k = k0 := fun hh => h (by simp [keysOf_cons, hh])
      have h2 : k ∉ keysOf rest := fun hh => h (by simp [keysOf_cons, hh])
      simp only [setKey, if_neg (fun hh : k0 = k => h1 hh.symm), keysOf_cons,
        ih h2, List.cons_append]

theorem skipRemove_cons_neg (e c : String) (t : List String)
    (hc : ¬occursIn c e = true) : skipRemove e (c :: t) = c :: skipRemove e t := by
  cases t with
  | nil => simp [skipRemove, hc]
  | cons d rest => simp [skipRemove, hc]

theorem findIdx_get_of_nodup (L : List String) (i : Nat) (h : i < L.length)
    (hnd : L.Nodup) : L.findIdx (fun x => x = L.get ⟨i, h⟩) = i := by
  induction L generalizing i with
  | nil => simp at h
  | cons a rest ih =>
      cases i with
      | zero => simp [List.findIdx_cons]
      | succ j =>
          have hj : j < rest.length := by simpa using h
          have hnd' : rest.Nodup := (List.nodup_cons.mp hnd).2
          have hmem : rest[j] ∈ rest := List.getElem_mem hj
          have hne : ¬(a = rest[j]) := by
            intro heq; exact (List.nodup_cons.mp hnd).1 (heq ▸ hmem)
          have hrec := ih j hj hnd'
          simp only [List.get_eq_getElem] at hrec ⊢
          simp [List.findIdx_cons, hne, hrec]

theorem take_append_len (xs ys : List String) (n : Nat) (hn : xs.length = n) :
    (xs ++ ys).take (n + 1) = xs ++ ys.take 1 := by
  subst hn; exact List.take_append 1

theorem drop_append_len (xs ys : List String) (n : Nat) (hn : xs.length = n) :
    (xs ++ ys).drop (n + 1) = ys.drop 1 := by
  subst hn; exact List.drop_append 1

theorem removeLoop_eq_skip (e : String) :
    ∀ (k : Nat) (L : List String) (i : Nat), 2 * L.length - i ≤ k → L.Nodup →
      removeLoop e L i = L.take i ++ skipRemove e (L.drop i) := by
  intro k
  induction k with
  | zero =>
      intro L i hk _
      have hge : L.length ≤ i := by omega
      rw [removeLoop, dif_neg (by omega), List.take_of_length_le hge,
        List.drop_eq_nil_of_le hge]
      simp [skipRemove]
  | succ k ih =>
      intro L i hk hnd
      by_cases hlt : i < L.length
      · by_cases hc : occursIn (L.get ⟨i, hlt⟩) e
        · have hc' : occursIn L[i] e = true := by
            simpa [List.get_eq_getElem] using hc
          rw [removeLoop, dif_pos hlt, if_pos hc,
            findIdx_get_of_nodup L i hlt hnd]
          have hlen : (L.eraseIdx i).length + 1 = L.length :=
            List.length_eraseIdx_add_one hlt
          have hnd' : (L.eraseIdx i).Nodup :=
            List.Nodup.sublist (List.eraseIdx_sublist L i) hnd
          rw [ih (L.eraseIdx i) (i + 1) (by omega) hnd']
          rw [List.eraseIdx_eq_take_drop_succ]
          have htk : (L.take i).length = i := by
            rw [List.length_take]; omega
          rw [take_append_len _ _ i htk, drop_append_len _ _ i htk,
            List.drop_eq_getElem_cons hlt]
          cases hdrop : L.drop (i + 1) with
          | nil => simp [skipRemove, hc']
          | cons d rest => simp [skipRemove, hc']
        · have hc' : ¬occursIn L[i] e = true := by
            simpa [List.get_eq_getElem] using hc
          rw [removeLoop, dif_pos hlt, if_neg hc]
          rw [ih L (i + 1) (by omega) hnd]
          rw [List.drop_eq_getElem_cons hlt, skipRemove_cons_neg e _ _ hc']
          rw [show List.take (i + 1) L = List.take i L ++ [L[i]] from
            (List.take_concat_get' L i hlt).symm]
          rw [List.append_assoc, List.singleton_append]
      · have hge : L.length ≤ i := by omega
        rw [removeLoop, dif_neg hlt, List.take_of_length_le hge,
          List.drop_eq_nil_of_le hge]
        simp [skipRemove]

/-- On a duplicate-free command list, remove_cmd computes exactly the
skipRemove recursion. -/
theorem remove_cmd_eq_skip (e : String) (cmds : List String) (hnd : cmds.Nodup) :
    remove_cmd e cmds = skipRemove e cmds := by
  have := removeLoop_eq_skip e (2 * cmds.length) cmds 0 (by omega) hnd
  simpa [remove_cmd] using this

/-- Induction principle matching the two-step recursion of skipRemove. -/
theorem twoStepInduction {P : List String → Prop} (h0 : P [])
    (h1 : ∀ c, P [c])
    (h2 : ∀ c d rest, P rest → P (d :: rest) → P (c :: d :: rest)) :
    ∀ L : List String, P L
  | [] => h0
  | [c] => h1 c
  | c :: d :: rest =>
      h2 c d rest (twoStepInduction h0 h1 h2 rest)
        (twoStepInduction h0 h1 h2 (d :: rest))

theorem skipRemove_sublist (e : String) :
    ∀ L : List String, List.Sublist (skipRemove e L) L := by
  apply twoStepInduction
  · simp [skipRemove]
  · intro c
    by_cases hc : occursIn c e = true <;>
      simp [skipRemove, hc]
  · intro c d rest ih1 ih2
    by_cases hc : occursIn c e = true
    · simp only [skipRemove, if_pos hc]
      exact List.Sublist.cons _ (List.Sublist.cons₂ _ ih1)
    · simp only [skipRemove, if_neg hc]
      exact List.Sublist.cons₂ _ ih2

theorem skipRemove_length_lt (e : String) :
    ∀ L : List String, (∃ c ∈ L, occursIn c e = true) →
      (skipRemove e L).length < L.length := by
  apply twoStepInduction
  · rintro ⟨c, hc, _⟩
    simp at hc
  · rintro c ⟨c', hm, ho⟩
    have : c' = c := by simpa using hm
    subst this
    simp [skipRemove, ho]
  · rintro c d rest ih1 ih2 ⟨c', hm, ho⟩
    by_cases hc : occursIn c e = true
    · have hle : (skipRemove e rest).length ≤ rest.length :=
        (skipRemove_sublist e rest).length_le
      simp only [skipRemove, if_pos hc, List.length_cons]
      omega
    · have hc' : c' ∈ d :: rest := by
        rcases List.mem_cons.mp hm with h | h
        · exact absurd (h ▸ ho) hc
        · exact h
      have := ih2 ⟨c', hc', ho⟩
      simp only [List.length_cons] at this
      simp only [skipRemove, if_neg hc, List.length_cons]
      omega

theorem skipRemove_eq_filter (e : String) :
    ∀ L : List String,
      List.Chain' (fun a b => occursIn a e = true → occursIn b e = false) L →
      skipRemove e L = L.filter (fun c => !occursIn c e) := by
  apply twoStepInduction
  · intro _
    simp [skipRemove]
  · intro c _
    by_cases hc : occursIn c e = true <;> simp [skipRemove, hc]
  · intro c d rest ih1 ih2 hch
    rcases List.chain'_cons.mp hch with ⟨hcd, hch'⟩
    by_cases hc : occursIn c e = true
    · have hd : occursIn d e = false := hcd hc
      have hch'' : List.Chain'
          (fun a b => occursIn a e = true → occursIn b e = false) rest :=
        List.Chain'.tail hch'
      simp [skipRemove, hc, hd, ih1 hch'']
    · simp [skipRemove_cons_neg e c _ hc, hc, ih2 hch']

/-- C1: the narrowing step remove_cmd does NOT always remove every
command named in the error message.  Concrete refutation: both commands
occur textually in the error, yet only the first is removed, because the
Python loop pops while iterating and skips the element that slides into
the removed position. -/
theorem remove_cmd_adjacent_named_kept :
    occursIn "show a" "bad: show a, show b" = true ∧
    occursIn "show b" "bad: show a, show b" = true ∧
    remove_cmd "bad: show a, show b" ["show a", "show b"] = ["show b"] := by
  refine ⟨by decide, by decide, ?_⟩
  rw [remove_cmd_eq_skip _ _ (by decide)]
  decide

/-- C1 (amended): for a duplicate-free command set in which no two
consecutive commands both occur textually in the error message, the
narrowing step removes exactly the commands named in the error, so the
retried set equals the original minus the named commands.  When two
adjacent commands are both named, the later one is skipped and kept. -/
theorem remove_cmd_removes_named_of_no_adjacent (e : String) (cmds : List String)
    (hnd : cmds.Nodup)
    (hadj : List.Chain' (fun a b => occursIn a e = true → occursIn b e = false)
      cmds) :
    remove_cmd e cmds = cmds.filter (fun c => !occursIn c e) := by
  rw [remove_cmd_eq_skip e cmds hnd, skipRemove_eq_filter e cmds hadj]

/-- C1 witness: a concrete error naming exactly one of two pending
commands, on which the amended theorem yields the filtered set. -/
theorem remove_cmd_removes_named_witness :
    (["show a", "show b"] : List String).Nodup ∧
    remove_cmd "err show a" ["show a", "show b"] = ["show b"] := by
  refine ⟨by decide, ?_⟩
  rw [remove_cmd_removes_named_of_no_adjacent "err show a" ["show a", "show b"]
    (by decide)
    (List.chain'_cons.mpr ⟨fun _ => by decide, List.chain'_singleton _⟩)]
  decide

/-- C2: the claim that the send_cmds retry loop always terminates, in
particular when the error message matches none of the pending commands,
is FALSE.  On a connection that always raises with a message naming no
command, the set never shrinks and no number of passes reaches success
or exhaustion. -/
theorem send_cmds_unmatched_error_diverges :
    ¬∃ fuel : Nat,
      (sendCmds stubbornConn Encoding.json fuel ["show version"]).isSome = true := by
  rintro ⟨fuel, hf⟩
  have hrm : remove_cmd "zzz" ["show version"] = ["show version"] := by
    rw [remove_cmd_eq_skip _ _ (by decide)]
    decide
  have key : ∀ n, sendCmds stubbornConn Encoding.json n ["show version"] = none := by
    intro n
    induction n with
    | zero => rfl
    | succ n ih =>
        have hrun : stubbornConn.run Encoding.json ["show version"]
            = .error "zzz" := rfl
        simp only [sendCmds, hrun, hrm, ih]
  rw [key fuel] at hf
  simp at hf

/-- C2 (amended): the retry loop terminates whenever each failing call
raises an error that textually names at least one pending command (so
each pass strictly shrinks the duplicate-free set), and length plus one
passes always suffice. -/
theorem send_cmds_terminates_of_matching_errors (conn : Conn) (enc : Encoding) :
    ∀ (fuel : Nat) (cmds : List String), cmds.Nodup → cmds.length < fuel →
      (∀ cs e, conn.run enc cs = .error e → ∃ c ∈ cs, occursIn c e = true) →
      (sendCmds conn enc fuel cmds).isSome = true := by
  intro fuel
  induction fuel with
  | zero =>
      intro cmds _ h _
      omega
  | succ n ih =>
      intro cmds hnd hlen hconn
      cases hr : conn.run enc cmds with
      | ok rs => simp [sendCmds, hr]
      | error e =>
          have hex := hconn cmds e hr
          have heq : remove_cmd e cmds = skipRemove e cmds :=
            remove_cmd_eq_skip e cmds hnd
          have hlt : (skipRemove e cmds).length < cmds.length :=
            skipRemove_length_lt e cmds hex
          have hnd' : (skipRemove e cmds).Nodup :=
            List.Nodup.sublist (skipRemove_sublist e cmds) hnd
          have hrec := ih (remove_cmd e cmds) (heq ▸ hnd')
            (by rw [heq]; omega) hconn
          simpa [sendCmds, hr] using hrec

/-- C2 witness: on a two-command set whose only rejection names a
pending command, the loop reaches success within length plus one
passes. -/
theorem send_cmds_terminates_witness :
    (["show bad", "show version"] : List String).Nodup ∧
    (sendCmds namingConn Encoding.json 3 ["show bad", "show version"]).isSome
      = true := by
  refine ⟨by decide, ?_⟩
  apply send_cmds_terminates_of_matching_errors namingConn Encoding.json 3
    ["show bad", "show version"] (by decide) (by decide)
  intro cs e hrun
  by_cases hmem : "show bad" ∈ cs
  · refine ⟨"show bad", hmem, ?_⟩
    have heq : Except.error (ε := String) (α := List Value) "err show bad"
        = .error e := by
      simpa [namingConn, hmem] using hrun
    have he : e = "err show bad" := by
      cases heq
      rfl
    rw [he]
    decide
  · simp [namingConn, hmem] at hrun

/-- C5: whenever send_cmds returns, the result list is aligned by index
with the possibly reduced command list it returns: assuming the
underlying run_commands yields exactly one output per submitted command
in order, the returned results are the per-command outputs of the
returned command list, so lengths agree and the i-th result is the
output of the i-th retained command, through any number of narrowing
recursions. -/
theorem send_cmds_alignment (conn : Conn) (enc : Encoding) (out : String → Value)
    (hconn : ∀ cs rs, conn.run enc cs = .ok rs → rs = cs.map out) :
    ∀ (fuel : Nat) (cmds : List String) (rs : List Value) (final : List String),
      sendCmds conn enc fuel cmds = some (rs, final) →
      rs = final.map out ∧ rs.length = final.length ∧
        ∀ i : Nat, rs.get? i = (final.get? i).map out := by
  intro fuel
  induction fuel with
  | zero =>
      intro cmds rs final h
      simp [sendCmds] at h
  | succ n ih =>
      intro cmds rs final h
      cases hr : conn.run enc cmds with
      | ok rs0 =>
          simp only [sendCmds, hr] at h
          have h' := Option.some.inj h
          have h1 : rs = rs0 := (congrArg Prod.fst h').symm
          have h2 : final = cmds := (congrArg Prod.snd h').symm
          have hrs : rs0 = cmds.map out := hconn cmds rs0 hr
          refine ⟨by rw [h1, h2, hrs], ?_, ?_⟩
          · rw [h1, h2, hrs]
            simp
          · intro i
            rw [h1, h2, hrs]
            simp
      | error e =>
          simp only [sendCmds, hr] at h
          exact ih (remove_cmd e cmds) rs final h

/-- C5 witness: a connection accepting everything, one pass, alignment
of the returned results with the returned command list. -/
theorem send_cmds_alignment_witness :
    sendCmds okConn Encoding.json 1 ["show version"]
      = some ([Value.str "show version"], ["show version"]) ∧
    [Value.str "show version"]
      = (["show version"] : List String).map Value.str := by
  refine ⟨rfl, ?_⟩
  exact (send_cmds_alignment okConn Encoding.json Value.str
    (fun cs rs h => (Except.ok.inj h).symm) 1 ["show version"]
    [Value.str "show version"] ["show version"] rfl).1

theorem buildOutput_frame (jc tc : List String) (jr tr : List Value) :
    ∀ (cmds : List String) (table : List (String × Value)) (k : String),
      k ∉ cmds →
      lookup (buildOutput jc tc jr tr cmds table).1 k = lookup table k := by
  intro cmds
  induction cmds with
  | nil =>
      intro table k _
      rfl
  | cons cmd rest ih =>
      intro table k hk
      have hkc : k ≠ cmd := fun hh => hk (hh ▸ List.mem_cons_self cmd rest)
      have hkr : k ∉ rest := fun hh => hk (List.mem_cons_of_mem cmd hh)
      cases hej : entryJson cmd jc jr with
      | error er =>
          simp only [buildOutput, hej]
          exact lookup_setKey_ne table cmd k _ hkc
      | ok jv =>
          cases het : entryText cmd tc tr with
          | error er =>
              simp only [buildOutput, hej, het]
              exact lookup_setKey_ne table cmd k _ hkc
          | ok tv =>
              simp only [buildOutput, hej, het]
              rw [ih _ k hkr]
              exact lookup_setKey_ne table cmd k _ hkc

theorem buildOutput_keysOf (jc tc : List String) (jr tr : List Value) :
    ∀ (cmds : List String) (table : List (String × Value)),
      cmds.Nodup → (∀ c ∈ cmds, c ∉ keysOf table) →
      (buildOutput jc tc jr tr cmds table).2 = none →
      keysOf (buildOutput jc tc jr tr cmds table).1 = keysOf table ++ cmds := by
  intro cmds
  induction cmds with
  | nil =>
      intro table _ _ _
      simp [buildOutput]
  | cons cmd rest ih =>
      intro table hnd hdisj hsucc
      cases hej : entryJson cmd jc jr with
      | error er =>
          simp only [buildOutput, hej] at hsucc
          exact Option.noConfusion hsucc
      | ok jv =>
          cases het : entryText cmd tc tr with
          | error er =>
              simp only [buildOutput, hej, het] at hsucc
              exact Option.noConfusion hsucc
          | ok tv =>
              simp only [buildOutput, hej, het] at hsucc ⊢
              have hc : cmd ∉ keysOf table :=
                hdisj cmd (List.mem_cons_self cmd rest)
              have hkeys := keysOf_setKey_not_mem table cmd
                (.dict [("json", jv), ("text", tv)]) hc
              have hdisj' : ∀ c ∈ rest,
                  c ∉ keysOf (setKey table cmd
                    (.dict [("json", jv), ("text", tv)])) := by
                intro c hcr
                rw [hkeys]
                intro hmem
                rcases List.mem_append.mp hmem with hmem | hmem
                · exact hdisj c (List.mem_cons_of_mem cmd hcr) hmem
                · have : c = cmd := by simpa using hmem
                  exact (List.nodup_cons.mp hnd).1 (this ▸ hcr)
              rw [ih _ (List.nodup_cons.mp hnd).2 hdisj' hsucc, hkeys,
                List.append_assoc, List.singleton_append]

theorem buildOutput_lookup (jc tc : List String) (jr tr : List Value) :
    ∀ (cmds : List String) (table : List (String × Value)),
      cmds.Nodup →
      (buildOutput jc tc jr tr cmds table).2 = none →
      ∀ c ∈ cmds, ∃ jv tv,
        lookup (buildOutput jc tc jr tr cmds table).1 c
          = some (.dict [("json", jv), ("text", tv)]) := by
  intro cmds
  induction cmds with
  | nil =>
      intro table _ _ c hc
      simp at hc
  | cons cmd rest ih =>
      intro table hnd hsucc c hc
      cases hej : entryJson cmd jc jr with
      | error er =>
          simp only [buildOutput, hej] at hsucc
          exact Option.noConfusion hsucc
      | ok jv =>
          cases het : entryText cmd tc tr with
          | error er =>
              simp only [buildOutput, hej, het] at hsucc
              exact Option.noConfusion hsucc
          | ok tv =>
              simp only [buildOutput, hej, het] at hsucc ⊢
              rcases List.mem_cons.mp hc with hcc | hcr
              · subst hcc
                refine ⟨jv, tv, ?_⟩
                rw [buildOutput_frame jc tc jr tr rest _ c
                  (List.nodup_cons.mp hnd).1]
                exact lookup_setKey_self table c _
              · exact ih _ (List.nodup_cons.mp hnd).2 hsucc c hcr

/-- C4: the claim that after fan-out each output table is keyed by
exactly the Command Set entries is FALSE: dut_worker first stores an
interface_list entry, so the table always carries one extra key beyond
the command set. -/
theorem init_duts_extra_interface_list_key :
    (init_duts exDefs exMkConn ["show version"] 1).map outputKeys
      = [some ["interface_list", "show version"]] ∧
    ("interface_list" : String) ∉ (["show version"] : List String) := by
  exact ⟨rfl, by decide⟩

/-- C4 (amended): for N device records, when every worker completes
without an exception, each of the N records carries a populated output
table keyed by exactly the interface_list entry followed by the Command
Set entries, and for every command the entry holds both a json and a
text value. -/
theorem init_duts_output_tables (defs : Defs) (mkConn : String → Conn)
    (cmds : List String) (fuel : Nat)
    (hnd : cmds.Nodup) (hil : "interface_list" ∉ cmds)
    (hok : ∀ dut ∈ login_duts defs mkConn,
      ∃ du, dut_worker defs dut cmds fuel = some du ∧ du.2 = none) :
    (init_duts defs mkConn cmds fuel).length = defs.duts.length ∧
    ∀ d ∈ init_duts defs mkConn cmds fuel,
      ∃ table, d.output = some table ∧
        keysOf table = "interface_list" :: cmds ∧
        ∀ c ∈ cmds, ∃ jv tv,
          lookup table c = some (.dict [("json", jv), ("text", tv)]) := by
  constructor
  · simp [init_duts, login_duts]
  · intro d hd
    rcases List.mem_map.mp hd with ⟨dut, hdut, hfd⟩
    rcases hok dut hdut with ⟨du, hw, hsucc⟩
    rw [hw] at hfd
    cases hjs : sendCmds dut.conn Encoding.json fuel cmds with
    | none => rw [dut_worker, hjs] at hw; exact absurd hw (by simp)
    | some jp =>
        cases hts : sendCmds dut.conn Encoding.text fuel cmds with
        | none =>
            rw [dut_worker, hjs, hts] at hw
            exact absurd hw (by simp)
        | some tp =>
            obtain ⟨jr, jcmds⟩ := jp
            obtain ⟨tr, tcmds⟩ := tp
            rw [dut_worker, hjs, hts] at hw
            have hdu := Option.some.inj hw
            have hout : du.1.output = some
                (buildOutput jcmds tcmds jr tr cmds
                  [("interface_list",
                    .list (return_interfaces dut.name defs))]).1 := by
              rw [← hdu]
            have herr : (buildOutput jcmds tcmds jr tr cmds
                [("interface_list",
                  .list (return_interfaces dut.name defs))]).2 = none := by
              rw [← hsucc, ← hdu]
            have hdisj : ∀ c ∈ cmds, c ∉ keysOf
                [(("interface_list" : String),
                  Value.list (return_interfaces dut.name defs))] := by
              intro c hc hmem
              have : c = "interface_list" := by simpa [keysOf] using hmem
              exact hil (this ▸ hc)
            refine ⟨_, by rw [← hfd]; exact hout, ?_, ?_⟩
            · rw [buildOutput_keysOf jcmds tcmds jr tr cmds _ hnd hdisj herr]
              rfl
            · exact buildOutput_lookup jcmds tcmds jr tr cmds _ hnd herr

/-- C4 witness: one device, one accepted command, the amended shape of
the populated table. -/
theorem init_duts_output_tables_witness :
    (init_duts exDefs exMkConn ["show version"] 1).length = exDefs.duts.length ∧
    ∀ d ∈ init_duts exDefs exMkConn ["show version"] 1,
      ∃ table, d.output = some table ∧
        keysOf table = "interface_list" :: ["show version"] ∧
        ∀ c ∈ (["show version"] : List String), ∃ jv tv,
          lookup table c = some (.dict [("json", jv), ("text", tv)]) := by
  apply init_duts_output_tables exDefs exMkConn ["show version"] 1 (by decide)
    (by decide)
  intro dut hdut
  have hd : dut = Dut.mk "dut1" "10.0.0.1" "admin" textConn none := by
    simpa [login_duts, exDefs, exDutDef, exMkConn] using hdut
  subst hd
  exact ⟨_, rfl, rfl⟩

/-- C3: the claim that fail_reason is empty iff test_result is true for
all values of output_msg is FALSE: with a failing result and an empty
output_msg the recorded fail_reason is the empty string even though
test_result is false. -/
theorem post_testcase_empty_msg_fail :
    lookup (post_testcase_params exCase (.str "") false "" (.num 70) (.num 80)
      "dut1") "test_result" = some (.bool false) ∧
    lookup (post_testcase_params exCase (.str "") false "" (.num 70) (.num 80)
      "dut1") "fail_reason" = some (.str "") := ⟨rfl, rfl⟩

/-- C3 (amended): post_testcase records fail_reason as output_msg when
test_result is false and as the empty string when it is true, for every
parameter dictionary; hence fail_reason is empty exactly when
test_result is true or output_msg is itself empty. -/
theorem post_testcase_fail_reason (p : List (String × Value)) (comment : Value)
    (tr : Bool) (msg : String) (expected actual : Value) (dn : String) :
    lookup (post_testcase_params p comment tr msg expected actual dn)
        "fail_reason" = some (.str (if tr then "" else msg)) ∧
    lookup (post_testcase_params p comment tr msg expected actual dn)
        "test_result" = some (.bool tr) ∧
    ((if tr then "" else msg) = "" ↔ (tr = true ∨ msg = "")) := by
  refine ⟨?_, ?_, ?_⟩
  · unfold post_testcase_params
    cases tr
    · exact lookup_setKey_self _ _ _
    · exact lookup_setKey_self _ _ _
  · unfold post_testcase_params
    cases tr
    · dsimp only
      rw [if_neg (by decide : ¬((false : Bool) = true))]
      rw [lookup_setKey_ne _ _ _ _ (by decide),
        lookup_setKey_ne _ _ _ _ (by decide),
        lookup_setKey_ne _ _ _ _ (by decide),
        lookup_setKey_ne _ _ _ _ (by decide),
        lookup_setKey_ne _ _ _ _ (by decide),
        lookup_setKey_ne _ _ _ _ (by decide)]
      exact lookup_setKey_self _ _ _
    · dsimp only
      rw [if_pos rfl]
      rw [lookup_setKey_ne _ _ _ _ (by decide),
        lookup_setKey_ne _ _ _ _ (by decide),
        lookup_setKey_ne _ _ _ _ (by decide),
        lookup_setKey_ne _ _ _ _ (by decide),
        lookup_setKey_ne _ _ _ _ (by decide)]
      exact lookup_setKey_self _ _ _
  · cases tr
    · simp
    · simp

theorem setCase_length (p : List (String × Value)) :
    ∀ (suites : List Suite) (i j : Nat),
      (setCase suites i j p).length = suites.length := by
  intro suites
  induction suites with
  | nil =>
      intro i j
      rfl
  | cons s rest ih =>
      intro i j
      cases i with
      | zero => simp [setCase]
      | succ i => simp [setCase, ih i j]

theorem setCase_get_ne (p : List (String × Value)) :
    ∀ (suites : List Suite) (i j i' : Nat), i' ≠ i →
      (setCase suites i j p).get? i' = suites.get? i' := by
  intro suites
  induction suites with
  | nil =>
      intro i j i' _
      rfl
  | cons s rest ih =>
      intro i j i' hne
      cases i with
      | zero =>
          cases i' with
          | zero => exact absurd rfl hne
          | succ i' => simp [setCase]
      | succ i =>
          cases i' with
          | zero => simp [setCase]
          | succ i' =>
              simpa [setCase] using ih i j i' (fun hh => hne (by rw [hh]))

theorem setCase_get_self (p : List (String × Value)) :
    ∀ (suites : List Suite) (i j : Nat) (s : Suite), suites.get? i = some s →
      (setCase suites i j p).get? i
        = some { s with testcases := s.testcases.set j p } := by
  intro suites
  induction suites with
  | nil =>
      intro i j s h
      simp at h
  | cons s0 rest ih =>
      intro i j s h
      cases i with
      | zero =>
          have h0 : s0 = s := by simpa using h
          subst h0
          simp [setCase]
      | succ i =>
          simpa [setCase] using ih i j s (by simpa using h)

theorem findSuite_some :
    ∀ (suites : List Suite) (sn : String) (i : Nat) (s : Suite),
      findSuite suites sn = some (i, s) →
      suites.get? i = some s ∧ s.name = sn := by
  intro suites
  induction suites with
  | nil =>
      intro sn i s h
      simp [findSuite] at h
  | cons s0 rest ih =>
      intro sn i s h
      by_cases h0 : s0.name = sn
      · rw [findSuite, if_pos h0] at h
        have hp := Option.some.inj h
        have hi : i = 0 := (congrArg Prod.fst hp).symm
        have hs : s = s0 := (congrArg Prod.snd hp).symm
        subst hi
        subst hs
        exact ⟨rfl, h0⟩
      · rw [findSuite, if_neg h0] at h
        cases hr : findSuite rest sn with
        | none =>
            rw [hr] at h
            simp at h
        | some pr =>
            obtain ⟨i0, s1⟩ := pr
            rw [hr] at h
            have hp := Option.some.inj h
            have hi : i = i0 + 1 := (congrArg Prod.fst hp).symm
            have hs : s = s1 := (congrArg Prod.snd hp).symm
            subst hi
            subst hs
            have := ih sn i0 s hr
            simpa using this

theorem findSuite_none_of_no_match :
    ∀ (suites : List Suite) (sn : String),
      (∀ s ∈ suites, s.name ≠ sn) → findSuite suites sn = none := by
  intro suites
  induction suites with
  | nil =>
      intro sn _
      rfl
  | cons s0 rest ih =>
      intro sn hno
      rw [findSuite, if_neg (hno s0 (List.mem_cons_self s0 rest)),
        ih sn (fun s hs => hno s (List.mem_cons_of_mem s0 hs))]
      rfl

theorem findCases_mem :
    ∀ (cs : List (List (String × Value))) (tc : String)
      (ms : List (Nat × List (String × Value))),
      findCases cs tc = .ok ms →
      ∀ m ∈ ms, cs.get? m.1 = some m.2 ∧
        ∃ v, lookup m.2 "name" = some v ∧ valueEqStr v tc = true := by
  intro cs
  induction cs with
  | nil =>
      intro tc ms h m hm
      have hnil : ms = [] := (Except.ok.inj h).symm
      subst hnil
      simp at hm
  | cons p rest ih =>
      intro tc ms h m hm
      cases hl : lookup p "name" with
      | none =>
          rw [findCases, hl] at h
          exact Except.noConfusion h
      | some v =>
          cases hr : findCases rest tc with
          | error er =>
              rw [findCases, hl, hr] at h
              exact Except.noConfusion h
          | ok ms0 =>
              rw [findCases, hl, hr] at h
              have hms := Except.ok.inj h
              by_cases hv : valueEqStr v tc = true
              · rw [if_pos hv] at hms
                subst hms
                rcases List.mem_cons.mp hm with hm0 | hm1
                · subst hm0
                  exact ⟨rfl, v, hl, hv⟩
                · rcases List.mem_map.mp hm1 with ⟨m0, hm0, hmeq⟩
                  have := ih tc ms0 hr m0 hm0
                  subst hmeq
                  simpa using this
              · rw [if_neg hv] at hms
                subst hms
                rcases List.mem_map.mp hm with ⟨m0, hm0, hmeq⟩
                have := ih tc ms0 hr m0 hm0
                subst hmeq
                simpa using this

theorem findCases_nil_of_no_match :
    ∀ (cs : List (List (String × Value))) (tc : String),
      (∀ p ∈ cs, ∃ v, lookup p "name" = some v ∧ valueEqStr v tc = false) →
      findCases cs tc = .ok [] := by
  intro cs
  induction cs with
  | nil =>
      intro tc _
      rfl
  | cons p rest ih =>
      intro tc hno
      rcases hno p (List.mem_cons_self p rest) with ⟨v, hv, hf⟩
      rw [findCases, hv, ih tc (fun q hq => hno q (List.mem_cons_of_mem p hq))]
      simp [hf]

/-- C10: get_parameters, like the textually identical
TestOps._get_parameters, succeeds only when the definitions contain a
suite named like the last path component of the test suite argument and
that suite contains a case whose name field equals the given test case
name; when either lookup comes up empty the result is an uncaught
IndexError (from subscripting the empty filter result), not the logged
systemExit path used for configuration errors. -/
theorem get_parameters_lookup_contract (defs : Defs) (ts tc caller : String)
    (htc : tc ≠ "") :
    (∀ d p, get_parameters defs ts tc caller = .ok (d, p) →
      ∃ s ∈ defs.test_suites, s.name = lastComponent ts ∧
        ∃ q ∈ s.testcases, ∃ v, lookup q "name" = some v ∧
          valueEqStr v tc = true) ∧
    (findSuite defs.test_suites (lastComponent ts) = none →
      get_parameters defs ts tc caller = .error .indexError) ∧
    (∀ i s, findSuite defs.test_suites (lastComponent ts) = some (i, s) →
      (∀ q ∈ s.testcases, ∃ v, lookup q "name" = some v ∧
        valueEqStr v tc = false) →
      get_parameters defs ts tc caller = .error .indexError) := by
  refine ⟨?_, ?_, ?_⟩
  · intro d p h
    rw [get_parameters, get_parameters_loc] at h
    simp only [if_neg htc] at h
    cases hfs : findSuite defs.test_suites (lastComponent ts) with
    | none =>
        rw [hfs] at h
        exact Except.noConfusion h
    | some pr =>
        obtain ⟨i, s⟩ := pr
        rw [hfs] at h
        dsimp only at h
        cases hfc : findCases s.testcases tc with
        | error er =>
            rw [hfc] at h
            exact Except.noConfusion h
        | ok ms =>
            cases ms with
            | nil =>
                rw [hfc] at h
                exact Except.noConfusion h
            | cons m ms' =>
                obtain ⟨hget, hname⟩ := findSuite_some defs.test_suites
                  (lastComponent ts) i s hfs
                have hs : s ∈ defs.test_suites := List.get?_mem hget
                obtain ⟨hcget, v, hv, hvt⟩ := findCases_mem s.testcases tc
                  (m :: ms') hfc m (List.mem_cons_self m ms')
                exact ⟨s, hs, hname, m.2, List.get?_mem hcget, v, hv, hvt⟩
  · intro hfs
    rw [get_parameters, get_parameters_loc]
    simp only [if_neg htc]
    rw [hfs]
  · intro i s hfs hno
    rw [get_parameters, get_parameters_loc]
    simp only [if_neg htc]
    rw [hfs]
    dsimp only
    rw [findCases_nil_of_no_match s.testcases tc hno]

/-- C10 witness: on a definitions structure without a suite named nope,
the lookup fails with IndexError. -/
theorem get_parameters_lookup_contract_witness :
    findSuite exDefs.test_suites (lastComponent "nope") = none ∧
    get_parameters exDefs "nope" "test_memory_utilization_on_" "caller"
      = .error .indexError := by
  refine ⟨rfl, ?_⟩
  exact (get_parameters_lookup_contract exDefs "nope"
    "test_memory_utilization_on_" "caller" (by decide)).2.1 rfl

theorem get_parameters_loc_ok (defs : Defs) (ts tc caller : String)
    (htc : tc ≠ "") (d : Defs) (i j : Nat) (p : List (String × Value))
    (h : get_parameters_loc defs ts tc caller = .ok (d, i, j, p)) :
    ∃ s p0, defs.test_suites.get? i = some s ∧ s.testcases.get? j = some p0 ∧
      p = setKey p0 "test_suite" (.str (lastComponent ts)) ∧
      d = { defs with test_suites := setCase defs.test_suites i j p } := by
  rw [get_parameters_loc] at h
  simp only [if_neg htc] at h
  cases hfs : findSuite defs.test_suites (lastComponent ts) with
  | none =>
      rw [hfs] at h
      exact Except.noConfusion h
  | some pr =>
      obtain ⟨i0, s⟩ := pr
      rw [hfs] at h
      dsimp only at h
      cases hfc : findCases s.testcases tc with
      | error er =>
          rw [hfc] at h
          exact Except.noConfusion h
      | ok ms =>
          cases ms with
          | nil =>
              rw [hfc] at h
              exact Except.noConfusion h
          | cons m ms2 =>
              rw [hfc] at h
              dsimp only at h
              have hinj := Except.ok.inj h
              simp only [Prod.mk.injEq] at hinj
              obtain ⟨hd, hi, hj, hp⟩ := hinj
              subst hd
              subst hi
              subst hj
              subst hp
              obtain ⟨hget, _⟩ := findSuite_some defs.test_suites
                (lastComponent ts) i0 s hfs
              obtain ⟨hcget, _⟩ := findCases_mem s.testcases tc (m :: ms2) hfc
                m (List.mem_cons_self m ms2)
              exact ⟨s, m.2, hget, hcget, rfl, rfl⟩

/-- C6: the claim that test case processing appends only the fields
comment, result and fail_reason to the test case mapping is FALSE: the
parameter lookup itself already appends a test_suite field (and
post_testcase appends test_result, output_msg, actual_output and dut as
well). -/
theorem get_parameters_appends_test_suite :
    lookup exCase "test_suite" = none ∧
    (∃ d p, get_parameters exDefs "tests/memory/test_memory"
        "test_memory_utilization_on_" "c" = .ok (d, p) ∧
      lookup p "test_suite" = some (.str "test_memory")) ∧
    ("test_suite" : String) ∉ (["comment", "result", "fail_reason"] :
      List String) := by
  exact ⟨rfl, ⟨_, _, rfl, rfl⟩, by decide⟩

/-- C6 (amended): after loading, test case processing (parameter lookup
followed by result recording) modifies the definitions structure only
inside the looked-up test case dictionary, and there only at the fields
test_suite, comment, test_result, output_msg, expected_output,
actual_output, dut and fail_reason: the parameters, the device list,
every other suite, the suite name and case count of the touched suite,
every other case, and every other field of the touched case are left
unchanged.  (The claim listed only comment, result and fail_reason.) -/
theorem process_testcase_frame (defs : Defs) (ts tc caller : String)
    (comment : Value) (tr : Bool) (msg : String) (expected actual : Value)
    (dn : String) (defs2 : Defs) (i j : Nat)
    (htc : tc ≠ "")
    (h : process_testcase defs ts tc caller comment tr msg expected actual dn
      = .ok (defs2, i, j)) :
    defs2.parameters = defs.parameters ∧
    defs2.duts = defs.duts ∧
    defs2.test_suites.length = defs.test_suites.length ∧
    (∀ i2, i2 ≠ i → defs2.test_suites.get? i2 = defs.test_suites.get? i2) ∧
    ((defs2.test_suites.get? i).map Suite.name
      = (defs.test_suites.get? i).map Suite.name) ∧
    ((defs2.test_suites.get? i).map (fun s => s.testcases.length)
      = (defs.test_suites.get? i).map (fun s => s.testcases.length)) ∧
    (∀ j2, j2 ≠ j → caseAt defs2 i j2 = caseAt defs i j2) ∧
    (∀ k, k ∉ touchedKeys →
      (caseAt defs2 i j).bind (fun q => lookup q k)
        = (caseAt defs i j).bind (fun q => lookup q k)) := by
  rw [process_testcase] at h
  cases hg : get_parameters_loc defs ts tc caller with
  | error er =>
      rw [hg] at h
      exact Except.noConfusion h
  | ok r =>
      obtain ⟨d0, i0, j0, p⟩ := r
      rw [hg] at h
      dsimp only at h
      have hinj := Except.ok.inj h
      simp only [Prod.mk.injEq] at hinj
      obtain ⟨hd2, hi, hj⟩ := hinj
      have hi2 : i = i0 := hi.symm
      have hj2 : j = j0 := hj.symm
      subst hi2
      subst hj2
      obtain ⟨s, p0, hget, hcget, hpa, hd0⟩ :=
        get_parameters_loc_ok defs ts tc caller htc d0 i j p hg
      subst hd0
      subst hd2
      have hjlt : j < s.testcases.length := by
        rcases List.get?_eq_some.mp hcget with ⟨hlt, _⟩
        exact hlt
      have hgetA : (setCase defs.test_suites i j p).get? i
          = some (Suite.mk s.name (s.testcases.set j p)) :=
        setCase_get_self p defs.test_suites i j s hget
      have hgetB : (setCase (setCase defs.test_suites i j p) i j
            (post_testcase_params p comment tr msg expected actual dn)).get? i
          = some (Suite.mk s.name ((s.testcases.set j p).set j
              (post_testcase_params p comment tr msg expected actual dn))) :=
        setCase_get_self _ _ i j _ hgetA
      refine ⟨rfl, rfl, ?_, ?_, ?_, ?_, ?_, ?_⟩
      · rw [setCase_length, setCase_length]
      · intro i2 hne
        rw [setCase_get_ne _ _ i j i2 hne, setCase_get_ne _ _ i j i2 hne]
      · rw [hgetB, hget]
        rfl
      · rw [hgetB, hget]
        simp
      · intro j2 hne
        rw [caseAt, caseAt, hgetB, hget]
        dsimp only [Option.bind]
        rw [List.get?_set_ne _ _ (fun hh => hne hh.symm),
          List.get?_set_ne _ _ (fun hh => hne hh.symm)]
      · intro k hk
        have hne : ∀ key ∈ touchedKeys, k ≠ key :=
          fun key hkey hh => hk (hh ▸ hkey)
        rw [caseAt, caseAt, hgetB, hget]
        dsimp only [Option.bind]
        rw [List.get?_set_eq_of_lt _ (by rw [List.length_set]; exact hjlt),
          hcget]
        dsimp only
        subst hpa
        unfold post_testcase_params
        dsimp only
        cases tr
        · rw [if_neg (by decide : ¬((false : Bool) = true))]
          rw [lookup_setKey_ne _ _ _ _ (hne "fail_reason" (by decide)),
            lookup_setKey_ne _ _ _ _ (hne "fail_reason" (by decide)),
            lookup_setKey_ne _ _ _ _ (hne "dut" (by decide)),
            lookup_setKey_ne _ _ _ _ (hne "actual_output" (by decide)),
            lookup_setKey_ne _ _ _ _ (hne "expected_output" (by decide)),
            lookup_setKey_ne _ _ _ _ (hne "output_msg" (by decide)),
            lookup_setKey_ne _ _ _ _ (hne "test_result" (by decide)),
            lookup_setKey_ne _ _ _ _ (hne "comment" (by decide)),
            lookup_setKey_ne _ _ _ _ (hne "test_suite" (by decide))]
        · rw [if_pos rfl]
          rw [lookup_setKey_ne _ _ _ _ (hne "fail_reason" (by decide)),
            lookup_setKey_ne _ _ _ _ (hne "dut" (by decide)),
            lookup_setKey_ne _ _ _ _ (hne "actual_output" (by decide)),
            lookup_setKey_ne _ _ _ _ (hne "expected_output" (by decide)),
            lookup_setKey_ne _ _ _ _ (hne "output_msg" (by decide)),
            lookup_setKey_ne _ _ _ _ (hne "test_result" (by decide)),
            lookup_setKey_ne _ _ _ _ (hne "comment" (by decide)),
            lookup_setKey_ne _ _ _ _ (hne "test_suite" (by decide))]

/-- C6 witness: a concrete successful processing run on which the frame
part for the parameters section holds. -/
theorem process_testcase_frame_witness :
    ∃ r, process_testcase exDefs "tests/memory/test_memory"
        "test_memory_utilization_on_" "c" (.str "") true "" (.num 70)
        (.num 50) "dut1" = .ok r ∧ r.1.parameters = exDefs.parameters := by
  refine ⟨_, rfl, ?_⟩
  exact (process_testcase_frame exDefs "tests/memory/test_memory"
    "test_memory_utilization_on_" "c" (.str "") true "" (.num 70) (.num 50)
    "dut1" _ 0 0 (by decide) rfl).1

theorem write_results_eq (fs p : List (String × Value)) (tcn dnn : String)
    (hn : lookup p "name" = some (.str tcn))
    (hd : lookup p "dut" = some (.str dnn))
    (hs : (lookup p "test_suite").isSome = true) :
    write_results fs p = .ok (setKey fs (result_path tcn dnn) (.dict p)) := by
  obtain ⟨ts0, hts⟩ := Option.isSome_iff_exists.mp hs
  rw [write_results, hts, hd, hn]
  rfl

/-- C7: the result record path is deterministically derived from the
test case name and device name following the pattern
../reports/results/result- name - dut .yml, writing again for the same
pair overwrites the prior file so the file system holds only the latest
record, and repeating the very same write changes nothing further. -/
theorem write_results_path_and_overwrite (fs p p2 : List (String × Value))
    (tcn dnn : String)
    (hn : lookup p "name" = some (.str tcn))
    (hd : lookup p "dut" = some (.str dnn))
    (hs : (lookup p "test_suite").isSome = true)
    (hn2 : lookup p2 "name" = some (.str tcn))
    (hd2 : lookup p2 "dut" = some (.str dnn))
    (hs2 : (lookup p2 "test_suite").isSome = true) :
    write_results fs p = .ok (setKey fs (result_path tcn dnn) (.dict p)) ∧
    (write_results fs p).bind (fun fs1 => write_results fs1 p2)
      = .ok (setKey fs (result_path tcn dnn) (.dict p2)) ∧
    (write_results fs p).bind (fun fs1 => write_results fs1 p)
      = .ok (setKey fs (result_path tcn dnn) (.dict p)) := by
  have h1 := write_results_eq fs p tcn dnn hn hd hs
  refine ⟨h1, ?_, ?_⟩
  · rw [h1]
    show write_results (setKey fs (result_path tcn dnn) (.dict p)) p2 = _
    rw [write_results_eq _ p2 tcn dnn hn2 hd2 hs2, setKey_setKey]
  · rw [h1]
    show write_results (setKey fs (result_path tcn dnn) (.dict p)) p = _
    rw [write_results_eq _ p tcn dnn hn hd hs, setKey_setKey]

/-- C7 witness: a concrete record written twice onto an empty file
system lands at the derived path with the latest content. -/
theorem write_results_witness :
    lookup [("name", Value.str "tc1"), ("dut", Value.str "dut1"),
        ("test_suite", Value.str "test_memory")] "name"
      = some (Value.str "tc1") ∧
    (write_results [] [("name", Value.str "tc1"), ("dut", Value.str "dut1"),
        ("test_suite", Value.str "test_memory")]).bind
      (fun fs1 => write_results fs1 [("name", Value.str "tc1"),
        ("dut", Value.str "dut1"), ("test_suite", Value.str "test_memory")])
      = .ok (setKey [] (result_path "tc1" "dut1")
          (.dict [("name", Value.str "tc1"), ("dut", Value.str "dut1"),
            ("test_suite", Value.str "test_memory")])) := by
  refine ⟨rfl, ?_⟩
  exact (write_results_path_and_overwrite []
    [("name", Value.str "tc1"), ("dut", Value.str "dut1"),
      ("test_suite", Value.str "test_memory")]
    [("name", Value.str "tc1"), ("dut", Value.str "dut1"),
      ("test_suite", Value.str "test_memory")]
    "tc1" "dut1" rfl rfl rfl rfl rfl rfl).2.2

/-- C8: in the text path of return_show_cmd, a failing first attempt is
followed by a fixed one second sleep and exactly one retry, and the
outcome of the second attempt, success or failure, is returned without
rewrapping; no trace ever holds more than two calls. -/
theorem return_show_cmd_single_retry (oc : Nat → Except PyErr (List Value)) :
    numTextCalls (return_show_cmd_text oc).1 ≤ 2 ∧
    (∀ e1, run_text_attempt oc 0 = .error e1 →
      (return_show_cmd_text oc).1
        = [TraceEv.callText, TraceEv.sleepSec 1, TraceEv.callText] ∧
      (return_show_cmd_text oc).2 = run_text_attempt oc 1) := by
  cases h0 : run_text_attempt oc 0 with
  | ok v =>
      constructor
      · simp only [return_show_cmd_text, h0]
        decide
      · intro e1 he
        exact Except.noConfusion he
  | error er =>
      constructor
      · simp only [return_show_cmd_text, h0]
        decide
      · intro e1 _
        simp [return_show_cmd_text, h0]

/-- C8 witness: a connection failing on both attempts sleeps once,
calls twice, and propagates the second failure unmodified. -/
theorem return_show_cmd_single_retry_witness :
    run_text_attempt (fun _ => .error (.err "boom")) 0 = .error (.err "boom") ∧
    (return_show_cmd_text (fun _ => .error (.err "boom"))).1
      = [TraceEv.callText, TraceEv.sleepSec 1, TraceEv.callText] ∧
    (return_show_cmd_text (fun _ => .error (.err "boom"))).2
      = .error (.err "boom") := by
  refine ⟨rfl, ?_⟩
  have h := (return_show_cmd_single_retry (fun _ => .error (.err "boom"))).2
    (.err "boom") rfl
  exact ⟨h.1, h.2.trans rfl⟩

/-- C9: with memTotal 1000 and memFree 500 the memory test computes
actual_output 50, and against expected_output 70 the test result is
true because 50 is strictly below 70. -/
theorem memory_utilization_scenario :
    memory_utilization 1000 500 70 = (50, true) := by
  unfold memory_utilization
  norm_num [Prod.mk.injEq, decide_eq_true_eq]

end Vane
